import Mathlib

/-!
# Watch engine of fschanges: Windows backend

A shallow embedding of `src/windows/WindowsBackend.cc`:

* `BruteForceBackend::readTree`, the stack-based directory walk,
* `Subscription::poll`, `Subscription::processEvents` and
  `Subscription::processEvent`, the completion handler of the native
  change notification.

Strings are `String`, `DWORD`s and timestamps are `Nat`; a member function
that can throw returns an `Outcome`: the state it leaves and the exception, if
any.  The operating system is an explicit environment `Env`.  `DirTree` and
`Watcher` are declared in headers that are not part of the translated file;
they are modelled from the specification.

The development proves, for `processEvent`, what each action code does to the
tree and the pending events; for `processEvents`, what each completion code
does; for `readTree`, that the walk keeps ignored paths out of the tree,
survives a directory that cannot be enumerated, ends on a well-founded
enumeration, and builds exactly the tree of the entries it reaches; and that
processing the change records of mutations that touch one path each keeps the
tree equal to the tree of a fresh scan.
-/

namespace FsChanges

/-! ## Win32 constants and records -/

def FILE_ATTRIBUTE_DIRECTORY : Nat := 16

def FILE_ACTION_ADDED : Nat := 1
def FILE_ACTION_REMOVED : Nat := 2
def FILE_ACTION_MODIFIED : Nat := 3
def FILE_ACTION_RENAMED_OLD_NAME : Nat := 4
def FILE_ACTION_RENAMED_NEW_NAME : Nat := 5

def ERROR_SUCCESS : Nat := 0
def ERROR_INVALID_PARAMETER : Nat := 87
def ERROR_OPERATION_ABORTED : Nat := 995
def ERROR_NOTIFY_ENUM_DIR : Nat := 1022

/-- Win32 `FILETIME`: the two 32-bit halves of a 64-bit tick count. -/
structure FILETIME where
  dwLowDateTime : Nat
  dwHighDateTime : Nat
deriving DecidableEq, Repr

/-- The macro `CONVERT_TIME(ft)`:
`ULARGE_INTEGER{ft.dwLowDateTime, ft.dwHighDateTime}.QuadPart`. -/
def CONVERT_TIME (ft : FILETIME) : Nat :=
  ft.dwLowDateTime % 2 ^ 32 + (ft.dwHighDateTime % 2 ^ 32) * 2 ^ 32

/-- The test `dwFileAttributes & FILE_ATTRIBUTE_DIRECTORY`, as a C++ `bool`. -/
def isDirectory (dwFileAttributes : Nat) : Bool :=
  (dwFileAttributes % 2 ^ 32) &&& FILE_ATTRIBUTE_DIRECTORY != 0

/-- Win32 `WIN32_FIND_DATA`, the fields `readTree` reads. -/
structure WIN32_FIND_DATA where
  cFileName : String
  ftLastWriteTime : FILETIME
  dwFileAttributes : Nat
deriving DecidableEq, Repr

/-- Win32 `WIN32_FILE_ATTRIBUTE_DATA`, the fields `processEvent` reads. -/
structure WIN32_FILE_ATTRIBUTE_DATA where
  ftLastWriteTime : FILETIME
  dwFileAttributes : Nat
deriving DecidableEq, Repr

/-- Win32 `FILE_NOTIFY_INFORMATION`: one change record.  `FileName` holds the
UTF-16 code units, `FileNameLength` is in bytes. -/
structure FILE_NOTIFY_INFORMATION where
  NextEntryOffset : Nat
  Action : Nat
  FileNameLength : Nat
  FileName : List Nat
deriving DecidableEq, Repr

/-- The operating system and the text conversion, as seen by the backend.

* `FindFiles spec` is the enumeration `FindFirstFile(spec)` followed by
  `FindNextFile` until it returns 0: `none` is `INVALID_HANDLE_VALUE`,
  otherwise the first entry and the later ones;
* `GetFileAttributesExW path` is the stat of `utf8ToUtf16(path)`, `none` when
  the call fails;
* `utf16ToUtf8 name n` is the helper of `win_utils.hh` (not part of the
  translated file), taken as a parameter. -/
structure Env where
  FindFiles : String → Option (WIN32_FIND_DATA × List WIN32_FIND_DATA)
  GetFileAttributesExW : String → Option WIN32_FILE_ATTRIBUTE_DATA
  utf16ToUtf8 : List Nat → Nat → String

/-! ## DirTree, events and Watcher -/

/-- Modelled from the spec: the `Entry` of a `DirTree` (`DirTree.hh` is not part
of the translated file): path, last-modified time, directory flag. -/
structure DirEntry where
  path : String
  mtime : Nat
  isDir : Bool
deriving DecidableEq, Repr

/-- Modelled from the spec: `DirTree` (`DirTree.hh` is not part of the
translated file), "a mapping from path to Entry". -/
def DirTree : Type := String → Option DirEntry

namespace DirTree

/-- Modelled from the spec: the tree of a Watcher before any scan. -/
def empty : DirTree := fun _ => none

/-- Modelled from the spec: `DirTree::add(path, mtime, isDir)`, "inserts or
overwrites". -/
def add (t : DirTree) (path : String) (mtime : Nat) (isDir : Bool) : DirTree :=
  fun q => if q = path then some ⟨path, mtime, isDir⟩ else t q

/-- Modelled from the spec: `DirTree::update(path, mtime)`, "refreshes
timestamp for an existing entry", a no-op when the entry is absent. -/
def update (t : DirTree) (path : String) (mtime : Nat) : DirTree :=
  fun q => if q = path then (t path).map (fun e => { e with mtime := mtime }) else t q

/-- Modelled from the spec: `DirTree::remove(path)`, "deletes the entry and is
idempotent". -/
def remove (t : DirTree) (path : String) : DirTree :=
  fun q => if q = path then none else t q

end DirTree

/-- Modelled from the spec: the `Event` variant (the event list is not part of
the translated file): created, updated, removed, each with its path. -/
inductive Event where
  | Created (path : String)
  | Updated (path : String)
  | Removed (path : String)
deriving DecidableEq, Repr

/-- Modelled from the spec: `Watcher` (`Watcher.hh` is not part of the
translated file): directory root, ignore set, the pending events `mEvents`
("ordered, append-only"), and the batches already flushed to the sink. -/
structure Watcher where
  mDir : String
  mIgnore : List String
  mEvents : List Event
  sink : List (List Event)
deriving DecidableEq, Repr

namespace Watcher

/-- Modelled from the spec: `Watcher::isIgnored(path)`, exact match against
the ignore set. -/
def isIgnored (w : Watcher) (path : String) : Bool :=
  decide (path ∈ w.mIgnore)

/-- Modelled from the spec: `mEvents.create(path)`. -/
def create (w : Watcher) (path : String) : Watcher :=
  { w with mEvents := w.mEvents ++ [Event.Created path] }

/-- Modelled from the spec: `mEvents.update(path)`. -/
def update (w : Watcher) (path : String) : Watcher :=
  { w with mEvents := w.mEvents ++ [Event.Updated path] }

/-- Modelled from the spec: `mEvents.remove(path)`. -/
def remove (w : Watcher) (path : String) : Watcher :=
  { w with mEvents := w.mEvents ++ [Event.Removed path] }

/-- Modelled from the spec: `Watcher::notify()`, "flush the accumulated events
to the Watcher's sink as one notification". -/
def notify (w : Watcher) : Watcher :=
  { w with sink := w.sink ++ [w.mEvents], mEvents := [] }

end Watcher

/-! ## Subscription -/

/-- One of the two `std::vector<BYTE>` buffers of a Subscription: the address
of its storage, its size in bytes, and the change record found at each byte
offset. -/
structure Buffer where
  addr : Nat
  size : Nat
  recordAt : Nat → FILE_NOTIFY_INFORMATION

/-- The members of `class Subscription`.  `requests` is ghost state: the
buffer addresses handed to the `ReadDirectoryChangesW` calls accepted so far,
oldest first. -/
structure Subscription where
  mWatcher : Watcher
  mTree : DirTree
  mRunning : Bool
  mReadBuffer : Buffer
  mWriteBuffer : Buffer
  requests : List Nat

/-- The path `processEvent` works on: watcher root, separator, relative name. -/
def eventPath (env : Env) (s : Subscription) (info : FILE_NOTIFY_INFORMATION) : String :=
  s.mWatcher.mDir ++ "\\" ++ env.utf16ToUtf8 info.FileName (info.FileNameLength / 2)

/-- `Subscription::processEvent(info)`. -/
def processEvent (env : Env) (s : Subscription) (info : FILE_NOTIFY_INFORMATION) :
    Subscription :=
  let path := eventPath env s info
  if s.mWatcher.isIgnored path then s
  else if info.Action = FILE_ACTION_ADDED ∨ info.Action = FILE_ACTION_RENAMED_NEW_NAME then
    match env.GetFileAttributesExW path with
    | some data =>
      { s with
        mWatcher := s.mWatcher.create path
        mTree := s.mTree.add path (CONVERT_TIME data.ftLastWriteTime)
          (isDirectory data.dwFileAttributes) }
    | none => s
  else if info.Action = FILE_ACTION_MODIFIED then
    match env.GetFileAttributesExW path with
    | some data =>
      let s1 := { s with mTree := s.mTree.update path (CONVERT_TIME data.ftLastWriteTime) }
      if !isDirectory data.dwFileAttributes then
        { s1 with mWatcher := s1.mWatcher.update path }
      else s1
    | none => s
  else if info.Action = FILE_ACTION_REMOVED ∨ info.Action = FILE_ACTION_RENAMED_OLD_NAME then
    { s with
      mWatcher := s.mWatcher.remove path
      mTree := s.mTree.remove path }
  else s

/-- How a member function ends: the Subscription as it leaves it, and the
exception it throws, if any. -/
structure Outcome where
  state : Subscription
  thrown : Option String

/-- `Subscription::poll()`.  `rdcw` is the return value of
`ReadDirectoryChangesW`, which is handed `mWriteBuffer.data()`. -/
def poll (rdcw : Bool) (s : Subscription) : Outcome :=
  if !s.mRunning then ⟨s, none⟩
  else if !rdcw then ⟨s, some "Unexpected shutdown"⟩
  else ⟨{ s with requests := s.requests ++ [s.mWriteBuffer.addr] }, none⟩

/-- The loop `while (true)` of `processEvents` over the records of `buf`,
starting at byte offset `base`.  The source reads without a bound; here a read
at or past `buf.size` (undefined behaviour) ends the walk with the failure
"record outside the buffer".  The offsets grow strictly, so the fuel
`buf.size` is never exhausted before that. -/
def walkRecords (env : Env) (buf : Buffer) : Nat → Nat → Subscription → Outcome
  | 0, _, s => ⟨s, some "record outside the buffer"⟩
  | fuel + 1, base, s =>
    if buf.size ≤ base then ⟨s, some "record outside the buffer"⟩
    else
      let info := buf.recordAt base
      let s1 := processEvent env s info
      if info.NextEntryOffset = 0 then ⟨s1, none⟩
      else walkRecords env buf fuel (base + info.NextEntryOffset) s1

/-- `Subscription::processEvents(errorCode)`, called when the request that was
filling `mWriteBuffer` completes. -/
def processEvents (env : Env) (rdcw : Bool) (s : Subscription) (errorCode : Nat) : Outcome :=
  if !s.mRunning then ⟨s, none⟩
  else if errorCode = ERROR_OPERATION_ABORTED then ⟨s, none⟩
  else if errorCode = ERROR_INVALID_PARAMETER then ⟨s, none⟩
  else if errorCode = ERROR_NOTIFY_ENUM_DIR then ⟨s, none⟩
  else if errorCode ≠ ERROR_SUCCESS then ⟨s, some "Unknown error"⟩
  else
    let s1 := { s with mWriteBuffer := s.mReadBuffer, mReadBuffer := s.mWriteBuffer }
    let polled := poll rdcw s1
    match polled.thrown with
    | some e => ⟨polled.state, some e⟩
    | none =>
      let s2 := polled.state
      let walked := walkRecords env s2.mReadBuffer s2.mReadBuffer.size 0 s2
      match walked.thrown with
      | some e => ⟨walked.state, some e⟩
      | none => ⟨{ walked.state with mWatcher := walked.state.mWatcher.notify }, none⟩

/-- The records of `buf` from byte offset `base` on are exactly `recs`: each
lies inside the buffer, each but the last has a nonzero `NextEntryOffset`
leading to the next, and the last has `NextEntryOffset = 0`. -/
def Chain (buf : Buffer) : Nat → List FILE_NOTIFY_INFORMATION → Prop
  | _, [] => False
  | base, [r] => base < buf.size ∧ buf.recordAt base = r ∧ r.NextEntryOffset = 0
  | base, r :: r2 :: rest =>
    base < buf.size ∧ buf.recordAt base = r ∧ r.NextEntryOffset ≠ 0 ∧
      Chain buf (base + r.NextEntryOffset) (r2 :: rest)

/-- The Subscription after the swap of the buffers and an accepted re-arm:
the new request is on the buffer that was the read buffer. -/
def rearmed (s : Subscription) : Subscription :=
  { s with
    mWriteBuffer := s.mReadBuffer
    mReadBuffer := s.mWriteBuffer
    requests := s.requests ++ [s.mReadBuffer.addr] }

/-- The end of `processEvents` after the walk: `notify()` unless the walk
failed. -/
def flushed (walked : Outcome) : Outcome :=
  match walked.thrown with
  | some e => ⟨walked.state, some e⟩
  | none => ⟨{ walked.state with mWatcher := walked.state.mWatcher.notify }, none⟩

/-! ## BruteForceBackend -/

/-- A call made on the `DirTree` (ghost record of the walk). -/
inductive TreeCall where
  | add (path : String) (mtime : Nat) (isDir : Bool)
  | remove (path : String)
deriving DecidableEq, Repr

/-- The state of the loop of `readTree`: the stack `directories` (top first),
the tree, and the ghost list of the calls made on the tree so far. -/
structure ScanState where
  directories : List String
  tree : DirTree
  calls : List TreeCall

/-- The body of the `do ... while (FindNextFile ...)` loop for one entry
`ffd` of the directory `path`. -/
def scanEntry (w : Watcher) (path : String) (s : ScanState) (ffd : WIN32_FIND_DATA) :
    ScanState :=
  if ffd.cFileName ≠ "." ∧ ffd.cFileName ≠ ".." then
    let fullPath := path ++ "\\" ++ ffd.cFileName
    if fullPath ∈ w.mIgnore then s
    else
      let mtime := CONVERT_TIME ffd.ftLastWriteTime
      let isDir := isDirectory ffd.dwFileAttributes
      let s1 : ScanState :=
        { s with
          tree := s.tree.add fullPath mtime isDir
          calls := s.calls ++ [TreeCall.add fullPath mtime isDir] }
      if isDir then { s1 with directories := fullPath :: s1.directories } else s1
  else s

/-- One iteration of `while (!directories.empty())`: pop the top, enumerate
it, remove it from the tree when the enumeration fails, scan its entries
otherwise.  The identity on an empty stack. -/
def readTreeStep (env : Env) (w : Watcher) (s : ScanState) : ScanState :=
  match s.directories with
  | [] => s
  | path :: rest =>
    match env.FindFiles (path ++ "\\*") with
    | none =>
      { directories := rest
        tree := s.tree.remove path
        calls := s.calls ++ [TreeCall.remove path] }
    | some (ffd, more) =>
      (ffd :: more).foldl (scanEntry w path) { s with directories := rest }

/-- The loop `while (!directories.empty())`, at most `fuel` iterations:
`none` when the stack is still not empty after them. -/
def readTreeLoop (env : Env) (w : Watcher) : Nat → ScanState → Option ScanState
  | 0, s => if s.directories = [] then some s else none
  | fuel + 1, s =>
    if s.directories = [] then some s else readTreeLoop env w fuel (readTreeStep env w s)

/-- The state of `readTree` when it enters the loop: only the watcher root is
pending. -/
def readTreeInit (w : Watcher) (tree : DirTree) : ScanState :=
  { directories := [w.mDir], tree := tree, calls := [] }

/-- `BruteForceBackend::readTree(watcher, tree)`. -/
def readTree (env : Env) (w : Watcher) (tree : DirTree) (fuel : Nat) : Option DirTree :=
  (readTreeLoop env w fuel (readTreeInit w tree)).map (fun s => s.tree)

/-- The effect of one recorded call on a tree. -/
def TreeCall.apply (t : DirTree) : TreeCall → DirTree
  | TreeCall.add path mtime isDir => t.add path mtime isDir
  | TreeCall.remove path => t.remove path

/-- The entry `e` of the directory `path` passes the tests of lines 31 and 33:
it is neither `.` nor `..` and its full path is not in the ignore set. -/
abbrev Scanned (w : Watcher) (path : String) (e : WIN32_FIND_DATA) : Prop :=
  e.cFileName ≠ "." ∧ e.cFileName ≠ ".." ∧ path ++ "\\" ++ e.cFileName ∉ w.mIgnore

/-- The call `tree->add(fullPath, CONVERT_TIME(...), ... & FILE_ATTRIBUTE_DIRECTORY)`
of line 37 for the entry `e` of the directory `path`. -/
def addCall (path : String) (e : WIN32_FIND_DATA) : TreeCall :=
  TreeCall.add (path ++ "\\" ++ e.cFileName) (CONVERT_TIME e.ftLastWriteTime)
    (isDirectory e.dwFileAttributes)

/-- The enumeration is well founded below the watcher: some rank decreases
from every directory to each directory entry that `readTree` pushes from it.
This holds of every finite directory tree, and makes the walk end. -/
def WellFoundedFS (env : Env) (w : Watcher) : Prop :=
  ∃ rank : String → Nat, ∀ (p : String) (ffd : WIN32_FIND_DATA) (more : List WIN32_FIND_DATA),
    env.FindFiles (p ++ "\\*") = some (ffd, more) →
    ∀ e ∈ ffd :: more, Scanned w p e → isDirectory e.dwFileAttributes = true →
      rank (p ++ "\\" ++ e.cFileName) < rank p

/-! ## Example filesystems and Subscriptions -/

/-- A text conversion for names in the ASCII range. -/
def asciiName (name : List Nat) (n : Nat) : String :=
  String.mk ((name.take n).map Char.ofNat)

/-- The UTF-16 code units of `a.txt`. -/
def aTxt : List Nat := [97, 46, 116, 120, 116]

/-- A file stamped `20`. -/
def fileAt20 : WIN32_FILE_ATTRIBUTE_DATA := ⟨⟨20, 0⟩, 32⟩

/-- A filesystem where only `/w\\a.txt` resolves, as a file stamped `20`, and
where no directory can be enumerated. -/
def envA : Env :=
  { FindFiles := fun _ => none
    GetFileAttributesExW := fun p => if p = "/w\\a.txt" then some fileAt20 else none
    utf16ToUtf8 := asciiName }

/-- A filesystem where nothing resolves. -/
def envNone : Env :=
  { FindFiles := fun _ => none
    GetFileAttributesExW := fun _ => none
    utf16ToUtf8 := asciiName }

/-- A buffer holding the single record `action a.txt`. -/
def bufOne (addr action : Nat) : Buffer :=
  { addr := addr, size := 1048576, recordAt := fun _ => ⟨0, action, 10, aTxt⟩ }

/-- A running Subscription on `/w` whose tree holds `/w\\a.txt` stamped `10`. -/
def subA : Subscription :=
  { mWatcher := ⟨"/w", ["/w\\.git"], [], []⟩
    mTree := DirTree.empty.add "/w\\a.txt" 10 false
    mRunning := true
    mReadBuffer := bufOne 4096 0
    mWriteBuffer := bufOne 8192 FILE_ACTION_ADDED
    requests := [8192] }

/-- A directory entry with the attribute `FILE_ATTRIBUTE_DIRECTORY`. -/
def dirEntry (name : String) (low : Nat) : WIN32_FIND_DATA := ⟨name, ⟨low, 0⟩, 16⟩

/-- A file entry with the attribute `FILE_ATTRIBUTE_ARCHIVE`. -/
def fileEntry (name : String) (low : Nat) : WIN32_FIND_DATA := ⟨name, ⟨low, 0⟩, 32⟩

/-- A filesystem under `/w`: the directory `.git`, the file `a.txt` stamped
`20`, and the directory `sub`, which is listed by `/w` but can no longer be
enumerated (it was deleted after `/w` was listed). -/
def envW : Env :=
  { FindFiles := fun spec =>
      if spec = "/w\\*" then
        some (dirEntry "." 5, [dirEntry ".." 5, dirEntry ".git" 7, fileEntry "a.txt" 20,
          dirEntry "sub" 9])
      else if spec = "/w\\.git\\*" then
        some (dirEntry "." 7, [dirEntry ".." 5, fileEntry "config" 3])
      else none
    GetFileAttributesExW := fun p =>
      if p = "/w\\a.txt" then some fileAt20
      else if p = "/w\\.git" then some ⟨⟨7, 0⟩, 16⟩
      else if p = "/w\\.git\\config" then some ⟨⟨3, 0⟩, 32⟩
      else none
    utf16ToUtf8 := asciiName }

/-- A Watcher on `/w` that ignores `/w\\.git`. -/
def watcherW : Watcher := ⟨"/w", ["/w\\.git"], [], []⟩

/-- A filesystem where `/w\\other` holds the file `f.txt` and nothing else can
be enumerated. -/
def envOther : Env :=
  { FindFiles := fun spec =>
      if spec = "/w\\other\\*" then some (fileEntry "f.txt" 42, []) else none
    GetFileAttributesExW := fun _ => none
    utf16ToUtf8 := asciiName }

/-- A walk in progress: `/w\\sub` is on top of the stack, `/w\\other` below. -/
def scanSub : ScanState :=
  { directories := ["/w\\sub", "/w\\other"], tree := DirTree.empty, calls := [] }

/-- The UTF-16 code units of `b.txt`. -/
def bTxt : List Nat := [98, 46, 116, 120, 116]

/-- A filesystem where `/w\\a.txt` and `/w\\b.txt` resolve, as files. -/
def envAB : Env :=
  { FindFiles := fun _ => none
    GetFileAttributesExW := fun p =>
      if p = "/w\\a.txt" then some fileAt20
      else if p = "/w\\b.txt" then some ⟨⟨30, 0⟩, 32⟩
      else none
    utf16ToUtf8 := asciiName }

/-- A buffer holding "added a.txt" at offset 0 and "added b.txt" at offset 24. -/
def bufTwo : Buffer :=
  { addr := 8192
    size := 1048576
    recordAt := fun base =>
      if base = 0 then ⟨24, FILE_ACTION_ADDED, 10, aTxt⟩ else ⟨0, FILE_ACTION_ADDED, 10, bTxt⟩ }

/-- A running Subscription on `/w` with an empty tree, whose completed request
has filled the write buffer with `bufTwo`. -/
def subAB : Subscription :=
  { mWatcher := watcherW
    mTree := DirTree.empty
    mRunning := true
    mReadBuffer := bufOne 4096 0
    mWriteBuffer := bufTwo
    requests := [8192] }

/-! ## What a scan sees -/

/-- `processEvent` changes nothing but the tree and the pending events. -/
theorem processEvent_frame (env : Env) (s : Subscription) (info : FILE_NOTIFY_INFORMATION) :
    (processEvent env s info).mWatcher.mDir = s.mWatcher.mDir ∧
    (processEvent env s info).mWatcher.mIgnore = s.mWatcher.mIgnore ∧
    (processEvent env s info).mWatcher.sink = s.mWatcher.sink ∧
    (processEvent env s info).mRunning = s.mRunning ∧
    (processEvent env s info).mReadBuffer = s.mReadBuffer ∧
    (processEvent env s info).mWriteBuffer = s.mWriteBuffer ∧
    (processEvent env s info).requests = s.requests := by
  unfold processEvent
  simp only
  cases env.GetFileAttributesExW (eventPath env s info) with
  | none => split_ifs <;> simp [Watcher.remove]
  | some data =>
    cases hdir : isDirectory data.dwFileAttributes <;> split_ifs <;>
      simp [Watcher.create, Watcher.update, Watcher.remove, hdir]

theorem eventPath_congr (env : Env) (s1 s2 : Subscription) (info : FILE_NOTIFY_INFORMATION)
    (h : s1.mWatcher.mDir = s2.mWatcher.mDir) : eventPath env s1 info = eventPath env s2 info := by
  simp [eventPath, h]

/-- A created record on a path that is not ignored and that resolves. -/
theorem processEvent_added_eq (env : Env) (s : Subscription) (info : FILE_NOTIFY_INFORMATION)
    (data : WIN32_FILE_ATTRIBUTE_DATA)
    (hA : info.Action = FILE_ACTION_ADDED ∨ info.Action = FILE_ACTION_RENAMED_NEW_NAME)
    (hI : s.mWatcher.isIgnored (eventPath env s info) = false)
    (hd : env.GetFileAttributesExW (eventPath env s info) = some data) :
    processEvent env s info =
      { s with
        mWatcher := s.mWatcher.create (eventPath env s info)
        mTree := s.mTree.add (eventPath env s info) (CONVERT_TIME data.ftLastWriteTime)
          (isDirectory data.dwFileAttributes) } := by
  simp only [processEvent, hI, hA, hd, if_true, if_false, Bool.false_eq_true]

/-- The walk of a well-formed chain of records calls `processEvent` once per
record, in order, and ends without failure. -/
theorem walkRecords_chain (env : Env) (buf : Buffer) (recs : List FILE_NOTIFY_INFORMATION) :
    ∀ (fuel base : Nat) (s : Subscription), Chain buf base recs → buf.size ≤ base + fuel →
      walkRecords env buf fuel base s = ⟨recs.foldl (processEvent env) s, none⟩ := by
  induction recs with
  | nil => intro fuel base s hc; exact absurd hc (by simp [Chain])
  | cons r rest ih =>
    intro fuel base s hc hfuel
    cases rest with
    | nil =>
      simp only [Chain] at hc
      obtain ⟨hb, hr, h0⟩ := hc
      cases fuel with
      | zero => omega
      | succ k =>
        unfold walkRecords
        rw [if_neg (by omega)]
        simp only [hr, h0, if_true, List.foldl_cons, List.foldl_nil]
    | cons r2 rest2 =>
      simp only [Chain] at hc
      obtain ⟨hb, hr, h0, hrest⟩ := hc
      cases fuel with
      | zero => omega
      | succ k =>
        unfold walkRecords
        rw [if_neg (by omega)]
        simp only [hr, h0, if_false]
        rw [ih k (base + r.NextEntryOffset) (processEvent env s r) hrest (by omega)]
        rfl

/-- The walk of the records changes nothing but the tree and the pending
events, however it ends. -/
theorem walkRecords_frame (env : Env) (buf : Buffer) (fuel : Nat) :
    ∀ (base : Nat) (s : Subscription),
      (walkRecords env buf fuel base s).state.mWatcher.sink = s.mWatcher.sink ∧
      (walkRecords env buf fuel base s).state.mRunning = s.mRunning ∧
      (walkRecords env buf fuel base s).state.mReadBuffer = s.mReadBuffer ∧
      (walkRecords env buf fuel base s).state.mWriteBuffer = s.mWriteBuffer ∧
      (walkRecords env buf fuel base s).state.requests = s.requests := by
  induction fuel with
  | zero => intro base s; simp [walkRecords]
  | succ k ih =>
    intro base s
    unfold walkRecords
    obtain ⟨_, _, f3, f4, f5, f6, f7⟩ := processEvent_frame env s (buf.recordAt base)
    by_cases hb : buf.size ≤ base
    · rw [if_pos hb]
      simp
    · rw [if_neg hb]
      simp only
      by_cases h0 : (buf.recordAt base).NextEntryOffset = 0
      · rw [if_pos h0]
        exact ⟨f3, f4, f5, f6, f7⟩
      · rw [if_neg h0]
        obtain ⟨g1, g2, g3, g4, g5⟩ :=
          ih (base + (buf.recordAt base).NextEntryOffset) (processEvent env s (buf.recordAt base))
        rw [g1, g2, g3, g4, g5]
        exact ⟨f3, f4, f5, f6, f7⟩

/-- A batch of created records on paths that are not ignored and that
resolve: the pending events grow by one `Created` per record, in order, and
the tree holds every named path with its stat. -/
theorem foldl_added (env : Env) (recs : List FILE_NOTIFY_INFORMATION) :
    ∀ s : Subscription,
      (∀ r ∈ recs, r.Action = FILE_ACTION_ADDED) →
      (∀ r ∈ recs, s.mWatcher.isIgnored (eventPath env s r) = false) →
      (∀ r ∈ recs, ∃ data, env.GetFileAttributesExW (eventPath env s r) = some data) →
      (recs.foldl (processEvent env) s).mWatcher.mEvents
        = s.mWatcher.mEvents ++ recs.map (fun r => Event.Created (eventPath env s r)) ∧
      (∀ r ∈ recs, ∀ data, env.GetFileAttributesExW (eventPath env s r) = some data →
        (recs.foldl (processEvent env) s).mTree (eventPath env s r)
          = some ⟨eventPath env s r, CONVERT_TIME data.ftLastWriteTime,
              isDirectory data.dwFileAttributes⟩) ∧
      (∀ q data, env.GetFileAttributesExW q = some data →
        s.mTree q = some ⟨q, CONVERT_TIME data.ftLastWriteTime,
          isDirectory data.dwFileAttributes⟩ →
        (recs.foldl (processEvent env) s).mTree q
          = some ⟨q, CONVERT_TIME data.ftLastWriteTime, isDirectory data.dwFileAttributes⟩) ∧
      (∀ q, (∀ r ∈ recs, q ≠ eventPath env s r) →
        (recs.foldl (processEvent env) s).mTree q = s.mTree q) := by
  induction recs with
  | nil => intro s _ _ _; simp
  | cons r rest ih =>
    intro s hA hI hE
    obtain ⟨data, hd⟩ := hE r (List.mem_cons_self _ _)
    have hstep := processEvent_added_eq env s r data (Or.inl (hA r (List.mem_cons_self _ _)))
      (hI r (List.mem_cons_self _ _)) hd
    have hp : ∀ x, eventPath env (processEvent env s r) x = eventPath env s x := fun x =>
      eventPath_congr env _ _ x (processEvent_frame env s r).1
    have hig : ∀ q, (processEvent env s r).mWatcher.isIgnored q = s.mWatcher.isIgnored q := by
      intro q
      simp [Watcher.isIgnored, (processEvent_frame env s r).2.1]
    obtain ⟨e1, e2, e3, e4⟩ := ih (processEvent env s r)
      (fun x hx => hA x (List.mem_cons_of_mem _ hx))
      (fun x hx => by rw [hp, hig]; exact hI x (List.mem_cons_of_mem _ hx))
      (fun x hx => by rw [hp]; exact hE x (List.mem_cons_of_mem _ hx))
    simp only [hp] at e1 e2 e4
    rw [List.foldl_cons]
    have htree : (processEvent env s r).mTree
        = s.mTree.add (eventPath env s r) (CONVERT_TIME data.ftLastWriteTime)
            (isDirectory data.dwFileAttributes) := by rw [hstep]
    refine ⟨?_, ?_, ?_, ?_⟩
    · rw [e1, hstep]
      simp [Watcher.create]
    · intro x hx dx hdx
      rw [List.mem_cons] at hx
      rcases hx with hx | hx
      · apply e3 _ dx hdx
        rw [htree, hx]
        rw [hx, hd] at hdx
        simp only [Option.some.injEq] at hdx
        simp [DirTree.add, hdx]
      · exact e2 x hx dx hdx
    · intro q dq hdq hq
      apply e3 q dq hdq
      rw [htree]
      simp only [DirTree.add]
      split
      · rename_i heq
        rw [heq, hd] at hdq
        simp only [Option.some.injEq] at hdq
        rw [heq, hdq]
      · exact hq
    · intro q hq
      rw [e4 q (fun x hx => hq x (List.mem_cons_of_mem _ hx)), htree]
      simp [DirTree.add, hq r (List.mem_cons_self _ _)]

/-! ## Lemmas on the walk of readTree -/

theorem scanEntry_skip (w : Watcher) (path : String) (s : ScanState) (e : WIN32_FIND_DATA)
    (h : ¬ Scanned w path e) : scanEntry w path s e = s := by
  unfold scanEntry
  by_cases h1 : e.cFileName ≠ "." ∧ e.cFileName ≠ ".."
  · have h2 : path ++ "\\" ++ e.cFileName ∈ w.mIgnore := by
      by_contra hc
      exact h ⟨h1.1, h1.2, hc⟩
    simp [h1, h2]
  · rw [if_neg h1]

theorem scanEntry_scanned (w : Watcher) (path : String) (s : ScanState) (e : WIN32_FIND_DATA)
    (h : Scanned w path e) :
    scanEntry w path s e =
      { directories :=
          if isDirectory e.dwFileAttributes then (path ++ "\\" ++ e.cFileName) :: s.directories
          else s.directories
        tree := TreeCall.apply s.tree (addCall path e)
        calls := s.calls ++ [addCall path e] } := by
  unfold scanEntry
  have h1 : e.cFileName ≠ "." ∧ e.cFileName ≠ ".." := ⟨h.1, h.2.1⟩
  rw [if_pos h1]
  simp only [if_neg h.2.2]
  cases hd : isDirectory e.dwFileAttributes <;> simp [TreeCall.apply, addCall, hd]

/-- What scanning the entries of one directory does to a state: it pushes
directories that passed the tests, and makes exactly the `add` calls of the
entries that passed the tests. -/
theorem scanEntries_spec (w : Watcher) (path : String) (entries : List WIN32_FIND_DATA) :
    ∀ s : ScanState, ∃ (pushed : List String) (more : List TreeCall),
      (entries.foldl (scanEntry w path) s).directories = pushed ++ s.directories ∧
      (entries.foldl (scanEntry w path) s).calls = s.calls ++ more ∧
      (entries.foldl (scanEntry w path) s).tree = more.foldl TreeCall.apply s.tree ∧
      (∀ d ∈ pushed, ∃ e ∈ entries, Scanned w path e ∧ isDirectory e.dwFileAttributes = true ∧
        d = path ++ "\\" ++ e.cFileName) ∧
      (∀ c ∈ more, ∃ e ∈ entries, Scanned w path e ∧ c = addCall path e) ∧
      (∀ e ∈ entries, Scanned w path e → addCall path e ∈ more) := by
  induction entries with
  | nil =>
    intro s
    exact ⟨[], [], by simp, by simp, by simp, by simp, by simp, by simp⟩
  | cons e rest ih =>
    intro s
    rw [List.foldl_cons]
    by_cases hs : Scanned w path e
    · rw [scanEntry_scanned w path s e hs]
      obtain ⟨pushed, more, hd, hc, ht, hp, hm, ha⟩ := ih
        { directories :=
            if isDirectory e.dwFileAttributes then (path ++ "\\" ++ e.cFileName) :: s.directories
            else s.directories
          tree := TreeCall.apply s.tree (addCall path e)
          calls := s.calls ++ [addCall path e] }
      refine ⟨pushed ++ (if isDirectory e.dwFileAttributes then [path ++ "\\" ++ e.cFileName]
          else []), addCall path e :: more, ?_, ?_, ?_, ?_, ?_, ?_⟩
      · rw [hd]
        cases isDirectory e.dwFileAttributes <;> simp
      · rw [hc]; simp
      · rw [ht]; simp
      · intro d hdm
        rw [List.mem_append] at hdm
        rcases hdm with hdm | hdm
        · obtain ⟨e1, he1, h1⟩ := hp d hdm
          exact ⟨e1, List.mem_cons_of_mem _ he1, h1⟩
        · cases hdir : isDirectory e.dwFileAttributes
          · rw [hdir] at hdm; simp at hdm
          · rw [hdir] at hdm
            simp at hdm
            exact ⟨e, List.mem_cons_self _ _, hs, hdir, hdm⟩
      · intro c hcm
        rw [List.mem_cons] at hcm
        rcases hcm with hcm | hcm
        · exact ⟨e, List.mem_cons_self _ _, hs, hcm⟩
        · obtain ⟨e1, he1, h1⟩ := hm c hcm
          exact ⟨e1, List.mem_cons_of_mem _ he1, h1⟩
      · intro e1 he1 hs1
        rw [List.mem_cons] at he1
        rcases he1 with he1 | he1
        · rw [he1]; exact List.mem_cons_self _ _
        · exact List.mem_cons_of_mem _ (ha e1 he1 hs1)
    · rw [scanEntry_skip w path s e hs]
      obtain ⟨pushed, more, hd, hc, ht, hp, hm, ha⟩ := ih s
      refine ⟨pushed, more, hd, hc, ht, ?_, ?_, ?_⟩
      · intro d hdm
        obtain ⟨e1, he1, h1⟩ := hp d hdm
        exact ⟨e1, List.mem_cons_of_mem _ he1, h1⟩
      · intro c hcm
        obtain ⟨e1, he1, h1⟩ := hm c hcm
        exact ⟨e1, List.mem_cons_of_mem _ he1, h1⟩
      · intro e1 he1 hs1
        rw [List.mem_cons] at he1
        rcases he1 with he1 | he1
        · rw [he1] at hs1; exact absurd hs1 hs
        · exact ha e1 he1 hs1

theorem readTreeStep_nil (env : Env) (w : Watcher) (s : ScanState) (h : s.directories = []) :
    readTreeStep env w s = s := by
  unfold readTreeStep
  rw [h]

theorem readTreeStep_fail (env : Env) (w : Watcher) (s : ScanState) (path : String)
    (rest : List String) (h : s.directories = path :: rest)
    (hf : env.FindFiles (path ++ "\\*") = none) :
    readTreeStep env w s =
      { directories := rest
        tree := s.tree.remove path
        calls := s.calls ++ [TreeCall.remove path] } := by
  unfold readTreeStep
  rw [h]
  simp only [hf]

theorem readTreeStep_scan (env : Env) (w : Watcher) (s : ScanState) (path : String)
    (rest : List String) (ffd : WIN32_FIND_DATA) (more : List WIN32_FIND_DATA)
    (h : s.directories = path :: rest)
    (hf : env.FindFiles (path ++ "\\*") = some (ffd, more)) :
    readTreeStep env w s =
      (ffd :: more).foldl (scanEntry w path) { s with directories := rest } := by
  unfold readTreeStep
  rw [h]
  simp only [hf]

theorem iterate_nil (env : Env) (w : Watcher) (n : Nat) (s : ScanState)
    (h : s.directories = []) : (readTreeStep env w)^[n] s = s := by
  induction n with
  | zero => rfl
  | succ k ih => rw [Function.iterate_succ_apply, readTreeStep_nil env w s h, ih]

/-- The fuelled loop returns exactly when the stack is empty after `fuel`
iterations of the body, and then returns the state reached. -/
theorem readTreeLoop_eq (env : Env) (w : Watcher) (fuel : Nat) :
    ∀ s : ScanState, readTreeLoop env w fuel s =
      if ((readTreeStep env w)^[fuel] s).directories = [] then
        some ((readTreeStep env w)^[fuel] s)
      else none := by
  induction fuel with
  | zero => intro s; simp [readTreeLoop]
  | succ k ih =>
    intro s
    unfold readTreeLoop
    by_cases h : s.directories = []
    · rw [if_pos h, iterate_nil env w (k + 1) s h, if_pos h]
    · rw [if_neg h, ih, Function.iterate_succ_apply]

/-- One iteration on a state whose top is `path`: the new stack is the
directories pushed from `path` on top of the rest, the calls made are the
`remove` of `path` when its enumeration fails and the `add` of every entry
that passed the tests otherwise, and the tree is the old one after these
calls. -/
theorem readTreeStep_spec (env : Env) (w : Watcher) (s : ScanState) (path : String)
    (rest : List String) (h : s.directories = path :: rest) :
    ∃ (pushed : List String) (more : List TreeCall),
      (readTreeStep env w s).directories = pushed ++ rest ∧
      (readTreeStep env w s).calls = s.calls ++ more ∧
      (readTreeStep env w s).tree = more.foldl TreeCall.apply s.tree ∧
      (∀ d ∈ pushed, ∃ ffd tail, env.FindFiles (path ++ "\\*") = some (ffd, tail) ∧
        ∃ e ∈ ffd :: tail, Scanned w path e ∧ isDirectory e.dwFileAttributes = true ∧
          d = path ++ "\\" ++ e.cFileName) ∧
      (∀ c ∈ more, (env.FindFiles (path ++ "\\*") = none ∧ c = TreeCall.remove path) ∨
        ∃ ffd tail e, env.FindFiles (path ++ "\\*") = some (ffd, tail) ∧ e ∈ ffd :: tail ∧
          Scanned w path e ∧ c = addCall path e) ∧
      (env.FindFiles (path ++ "\\*") = none → TreeCall.remove path ∈ more) ∧
      (∀ ffd tail, env.FindFiles (path ++ "\\*") = some (ffd, tail) →
        ∀ e ∈ ffd :: tail, Scanned w path e → addCall path e ∈ more) := by
  cases hf : env.FindFiles (path ++ "\\*") with
  | none =>
    rw [readTreeStep_fail env w s path rest h hf]
    refine ⟨[], [TreeCall.remove path], by simp, by simp, by simp [TreeCall.apply], by simp,
      by simp, by simp, by simp⟩
  | some pr =>
    obtain ⟨ffd, tail⟩ := pr
    rw [readTreeStep_scan env w s path rest ffd tail h hf]
    obtain ⟨pushed, more, hd, hc, ht, hp, hm, ha⟩ :=
      scanEntries_spec w path (ffd :: tail) { s with directories := rest }
    refine ⟨pushed, more, hd, hc, ht, ?_, ?_, by simp, ?_⟩
    · intro d hdm
      exact ⟨ffd, tail, rfl, hp d hdm⟩
    · intro c hcm
      obtain ⟨e, hmem, he⟩ := hm c hcm
      exact Or.inr ⟨ffd, tail, e, rfl, hmem, he⟩
    · intro ffd2 tail2 h2 e he hs
      simp only [Option.some.injEq, Prod.mk.injEq] at h2
      rw [← h2.1, ← h2.2] at he
      exact ha e he hs

/-- Any number of iterations: the calls made extend the ghost list, the tree
is the old one after these calls, every call is a `remove` or the `add` of an
entry that passed the tests, and once the stack is empty every directory that
was pending has been handled: removed when its enumeration fails, all its
entries that passed the tests added otherwise. -/
theorem iterate_spec (env : Env) (w : Watcher) (n : Nat) :
    ∀ s : ScanState, ∃ more : List TreeCall,
      ((readTreeStep env w)^[n] s).calls = s.calls ++ more ∧
      ((readTreeStep env w)^[n] s).tree = more.foldl TreeCall.apply s.tree ∧
      (∀ c ∈ more, (∃ p, c = TreeCall.remove p) ∨ ∃ p e, Scanned w p e ∧ c = addCall p e) ∧
      (((readTreeStep env w)^[n] s).directories = [] → ∀ d ∈ s.directories,
        (env.FindFiles (d ++ "\\*") = none → TreeCall.remove d ∈ more) ∧
        (∀ ffd tail, env.FindFiles (d ++ "\\*") = some (ffd, tail) →
          ∀ e ∈ ffd :: tail, Scanned w d e → addCall d e ∈ more)) := by
  induction n with
  | zero =>
    intro s
    refine ⟨[], by simp, by simp, by simp, ?_⟩
    intro h d hd
    simp only [Function.iterate_zero, id_eq] at h
    rw [h] at hd
    simp at hd
  | succ k ih =>
    intro s
    rw [Function.iterate_succ_apply]
    cases hs : s.directories with
    | nil =>
      rw [readTreeStep_nil env w s hs]
      obtain ⟨more, h1, h2, h3, h4⟩ := ih s
      refine ⟨more, h1, h2, h3, ?_⟩
      intro _ d hd
      simp at hd
    | cons path rest =>
      obtain ⟨pushed, m1, hd1, hc1, ht1, _, hm1, hr1, ha1⟩ :=
        readTreeStep_spec env w s path rest hs
      obtain ⟨m2, hc2, ht2, hm2, hfin⟩ := ih (readTreeStep env w s)
      refine ⟨m1 ++ m2, ?_, ?_, ?_, ?_⟩
      · rw [hc2, hc1, List.append_assoc]
      · rw [ht2, ht1, List.foldl_append]
      · intro c hc
        rw [List.mem_append] at hc
        rcases hc with hc | hc
        · rcases hm1 c hc with ⟨_, h⟩ | ⟨_, _, e, _, _, he⟩
          · exact Or.inl ⟨path, h⟩
          · exact Or.inr ⟨path, e, he⟩
        · exact hm2 c hc
      · intro hnil d hd
        rw [List.mem_cons] at hd
        rcases hd with hd | hd
        · rw [hd]
          exact ⟨fun hf => List.mem_append_left _ (hr1 hf),
            fun ffd tail hf e he hsc => List.mem_append_left _ (ha1 ffd tail hf e he hsc)⟩
        · have hmem : d ∈ (readTreeStep env w s).directories := by
            rw [hd1]; exact List.mem_append_right _ hd
          obtain ⟨g1, g2⟩ := hfin hnil d hmem
          exact ⟨fun hf => List.mem_append_right _ (g1 hf),
            fun ffd tail hf e he hsc => List.mem_append_right _ (g2 ffd tail hf e he hsc)⟩

/-- Replaying calls that are removes or adds of paths outside the ignore set
keeps a tree free of ignored paths. -/
theorem replay_ignored (w : Watcher) (more : List TreeCall)
    (hm : ∀ c ∈ more, (∃ p, c = TreeCall.remove p) ∨ ∃ p e, Scanned w p e ∧ c = addCall p e) :
    ∀ t : DirTree, (∀ p ∈ w.mIgnore, t p = none) →
      ∀ p ∈ w.mIgnore, more.foldl TreeCall.apply t p = none := by
  induction more with
  | nil => intro t ht p hp; exact ht p hp
  | cons c rest ih =>
    intro t ht p hp
    rw [List.foldl_cons]
    apply ih (fun c1 hc1 => hm c1 (List.mem_cons_of_mem _ hc1)) _ _ p hp
    intro q hq
    rcases hm c (List.mem_cons_self _ _) with ⟨r, hr⟩ | ⟨r, e, hs, hr⟩
    · rw [hr]
      simp only [TreeCall.apply, DirTree.remove]
      split
      · rfl
      · exact ht q hq
    · rw [hr]
      simp only [TreeCall.apply, addCall, DirTree.add]
      have hne : q ≠ r ++ "\\" ++ e.cFileName := by
        intro heq
        rw [heq] at hq
        exact hs.2.2 hq
      rw [if_neg hne]
      exact ht q hq

/-- The walk ends on a well-founded enumeration, from every state. -/
theorem readTree_terminates (env : Env) (w : Watcher) (hwf : WellFoundedFS env w) :
    ∀ s : ScanState, ∃ n, ((readTreeStep env w)^[n] s).directories = [] := by
  obtain ⟨rank, hrank⟩ := hwf
  have key : ∀ k : Nat, ∀ p : String, rank p < k → ∀ rest : List String,
      (∀ t c, ∃ n, ((readTreeStep env w)^[n] ⟨rest, t, c⟩).directories = []) →
      ∀ t c, ∃ n, ((readTreeStep env w)^[n] ⟨p :: rest, t, c⟩).directories = [] := by
    intro k
    induction k with
    | zero => intro p hp; exact absurd hp (Nat.not_lt_zero _)
    | succ k ih =>
      intro p hp rest hrest t c
      obtain ⟨pushed, m1, hd1, _, _, hp1, _, _, _⟩ :=
        readTreeStep_spec env w ⟨p :: rest, t, c⟩ p rest rfl
      have hsub : ∀ l : List String, (∀ d ∈ l, rank d < k) →
          ∀ t c, ∃ n, ((readTreeStep env w)^[n] ⟨l ++ rest, t, c⟩).directories = [] := by
        intro l
        induction l with
        | nil => intro _ t c; exact hrest t c
        | cons d l ihl =>
          intro hl t c
          exact ih d (hl d (List.mem_cons_self _ _)) (l ++ rest)
            (ihl (fun d1 hd1 => hl d1 (List.mem_cons_of_mem _ hd1))) t c
      have hpushed : ∀ d ∈ pushed, rank d < k := by
        intro d hd
        obtain ⟨ffd, tail, hf, e, he, hs, hdir, hde⟩ := hp1 d hd
        have := hrank p ffd tail hf e he hs hdir
        rw [hde]
        omega
      obtain ⟨n, hn⟩ := hsub pushed hpushed (readTreeStep env w ⟨p :: rest, t, c⟩).tree
        (readTreeStep env w ⟨p :: rest, t, c⟩).calls
      refine ⟨n + 1, ?_⟩
      rw [Function.iterate_succ_apply]
      have heta : readTreeStep env w ⟨p :: rest, t, c⟩ =
          ⟨pushed ++ rest, (readTreeStep env w ⟨p :: rest, t, c⟩).tree,
            (readTreeStep env w ⟨p :: rest, t, c⟩).calls⟩ := by
        rw [← hd1]
      rw [heta]
      exact hn
  have hall : ∀ l : List String, ∀ t c,
      ∃ n, ((readTreeStep env w)^[n] ⟨l, t, c⟩).directories = [] := by
    intro l
    induction l with
    | nil => intro t c; exact ⟨0, rfl⟩
    | cons d l ihl => intro t c; exact key (rank d + 1) d (Nat.lt_succ_self _) l ihl t c
  intro s
  exact hall s.directories s.tree s.calls

/-! ## The tree a scan builds -/

/-- C1: a removed or renamed-from record on a path that is not ignored leaves
the tree without an entry for the path and appends exactly one `Removed path`
to the pending events; every other tree entry, the pending events before it
and the other members are untouched, and the result is the same in every
filesystem state (no stat is made). -/
theorem processEvent_removed (env : Env) (s : Subscription) (info : FILE_NOTIFY_INFORMATION)
    (hA : info.Action = FILE_ACTION_REMOVED ∨ info.Action = FILE_ACTION_RENAMED_OLD_NAME)
    (hI : s.mWatcher.isIgnored (eventPath env s info) = false) :
    (processEvent env s info).mTree (eventPath env s info) = none ∧
    (∀ q, q ≠ eventPath env s info → (processEvent env s info).mTree q = s.mTree q) ∧
    (processEvent env s info).mWatcher.mEvents
      = s.mWatcher.mEvents ++ [Event.Removed (eventPath env s info)] ∧
    (processEvent env s info).mWatcher.sink = s.mWatcher.sink ∧
    (processEvent env s info).mWatcher.mDir = s.mWatcher.mDir ∧
    (processEvent env s info).mWatcher.mIgnore = s.mWatcher.mIgnore ∧
    (processEvent env s info).requests = s.requests ∧
    (∀ env2 : Env, env2.utf16ToUtf8 = env.utf16ToUtf8 →
      processEvent env2 s info = processEvent env s info) := by
  have hne1 : info.Action ≠ FILE_ACTION_ADDED ∧ info.Action ≠ FILE_ACTION_RENAMED_NEW_NAME ∧
      info.Action ≠ FILE_ACTION_MODIFIED := by
    rcases hA with h | h <;> rw [h] <;> decide
  have key : ∀ e : Env, e.utf16ToUtf8 = env.utf16ToUtf8 →
      processEvent e s info =
        { s with
          mWatcher := s.mWatcher.remove (eventPath env s info)
          mTree := s.mTree.remove (eventPath env s info) } := by
    intro e he
    have hp : eventPath e s info = eventPath env s info := by
      simp [eventPath, he]
    simp only [processEvent, hp, hI, hne1.1, hne1.2.1, hne1.2.2, hA, or_self, if_true, if_false,
      Bool.false_eq_true]
  rw [key env rfl]
  refine ⟨?_, ?_, ?_, rfl, rfl, rfl, rfl, ?_⟩
  · simp [DirTree.remove]
  · intro q hq
    simp [DirTree.remove, hq]
  · simp [Watcher.remove]
  · intro env2 h2
    rw [key env2 h2]

/-- The hypotheses of `processEvent_removed` hold for "removed a.txt" on the
Subscription `subA`, in a filesystem where nothing resolves. -/
theorem processEvent_removed_witness :
    (processEvent envNone subA ⟨0, FILE_ACTION_REMOVED, 10, aTxt⟩).mTree "/w\\a.txt" = none ∧
    (processEvent envNone subA ⟨0, FILE_ACTION_REMOVED, 10, aTxt⟩).mWatcher.mEvents
      = [Event.Removed "/w\\a.txt"] :=
  have h := processEvent_removed envNone subA ⟨0, FILE_ACTION_REMOVED, 10, aTxt⟩
    (Or.inl rfl) (by decide)
  ⟨h.1, h.2.2.1⟩


/-- C2: a modified record on a path that is not ignored re-stats the path.
When the path does not exist nothing changes; when it exists the tree becomes
`tree.update path mtime` and exactly one `Updated path` is appended for a
file, none for a directory.  In particular a tree holding the path stamped
`10` and a stat reporting a file stamped `20` give a tree holding `20` and,
from no pending event, the single pending event `Updated path`. -/
theorem processEvent_modified (env : Env) (s : Subscription) (info : FILE_NOTIFY_INFORMATION)
    (hA : info.Action = FILE_ACTION_MODIFIED)
    (hI : s.mWatcher.isIgnored (eventPath env s info) = false) :
    (env.GetFileAttributesExW (eventPath env s info) = none → processEvent env s info = s) ∧
    (∀ data, env.GetFileAttributesExW (eventPath env s info) = some data →
      (processEvent env s info).mTree
        = s.mTree.update (eventPath env s info) (CONVERT_TIME data.ftLastWriteTime) ∧
      (processEvent env s info).mWatcher.mEvents
        = s.mWatcher.mEvents ++
          (if isDirectory data.dwFileAttributes then [] else [Event.Updated (eventPath env s info)]) ∧
      (processEvent env s info).mWatcher.sink = s.mWatcher.sink ∧
      (processEvent env s info).mWatcher.mDir = s.mWatcher.mDir ∧
      (processEvent env s info).mWatcher.mIgnore = s.mWatcher.mIgnore ∧
      (processEvent env s info).requests = s.requests) ∧
    (∀ data, env.GetFileAttributesExW (eventPath env s info) = some data →
      isDirectory data.dwFileAttributes = false →
      CONVERT_TIME data.ftLastWriteTime = 20 →
      s.mTree (eventPath env s info) = some ⟨eventPath env s info, 10, false⟩ →
      s.mWatcher.mEvents = [] →
      (processEvent env s info).mTree (eventPath env s info)
        = some ⟨eventPath env s info, 20, false⟩ ∧
      (processEvent env s info).mWatcher.mEvents = [Event.Updated (eventPath env s info)]) := by
  have hne : ¬ (FILE_ACTION_MODIFIED = FILE_ACTION_ADDED ∨
      FILE_ACTION_MODIFIED = FILE_ACTION_RENAMED_NEW_NAME) := by decide
  have hsome : ∀ data, env.GetFileAttributesExW (eventPath env s info) = some data →
      processEvent env s info =
        if isDirectory data.dwFileAttributes then
          { s with
            mTree := s.mTree.update (eventPath env s info) (CONVERT_TIME data.ftLastWriteTime) }
        else
          { s with
            mTree := s.mTree.update (eventPath env s info) (CONVERT_TIME data.ftLastWriteTime)
            mWatcher := s.mWatcher.update (eventPath env s info) } := by
    intro data hd
    simp only [processEvent, hI, hne, hA, hd, if_true, if_false, Bool.false_eq_true]
    cases isDirectory data.dwFileAttributes <;> simp
  refine ⟨?_, ?_, ?_⟩
  · intro hn
    simp only [processEvent, hI, hne, hA, hn, if_true, if_false, Bool.false_eq_true]
  · intro data hd
    rw [hsome data hd]
    cases isDirectory data.dwFileAttributes <;> simp [Watcher.update]
  · intro data hd hfile ht he hev
    rw [hsome data hd, hfile]
    simp [Watcher.update, DirTree.update, he, ht, hev]

/-- The scenario of C2 on `subA`: "modified a.txt" with the file now stamped
`20` in `envA`. -/
theorem processEvent_modified_witness :
    (processEvent envA subA ⟨0, FILE_ACTION_MODIFIED, 10, aTxt⟩).mTree "/w\\a.txt"
      = some ⟨"/w\\a.txt", 20, false⟩ ∧
    (processEvent envA subA ⟨0, FILE_ACTION_MODIFIED, 10, aTxt⟩).mWatcher.mEvents
      = [Event.Updated "/w\\a.txt"] :=
  (processEvent_modified envA subA ⟨0, FILE_ACTION_MODIFIED, 10, aTxt⟩ rfl (by decide)).2.2
    fileAt20 (by decide) (by decide) (by decide) (by decide) rfl

/-- C3: a created or renamed-to record on a path that is not ignored re-stats
the path.  When the path exists the tree afterwards holds the entry of the
path with the stat's last-write time and directory flag (inserted or
overwritten), every other entry is as before, and exactly one `Created path`
is appended; when it no longer exists nothing changes. -/
theorem processEvent_created (env : Env) (s : Subscription) (info : FILE_NOTIFY_INFORMATION)
    (hA : info.Action = FILE_ACTION_ADDED ∨ info.Action = FILE_ACTION_RENAMED_NEW_NAME)
    (hI : s.mWatcher.isIgnored (eventPath env s info) = false) :
    (∀ data, env.GetFileAttributesExW (eventPath env s info) = some data →
      (processEvent env s info).mTree (eventPath env s info)
        = some ⟨eventPath env s info, CONVERT_TIME data.ftLastWriteTime,
            isDirectory data.dwFileAttributes⟩ ∧
      (∀ q, q ≠ eventPath env s info → (processEvent env s info).mTree q = s.mTree q) ∧
      (processEvent env s info).mWatcher.mEvents
        = s.mWatcher.mEvents ++ [Event.Created (eventPath env s info)] ∧
      (processEvent env s info).mWatcher.sink = s.mWatcher.sink ∧
      (processEvent env s info).mWatcher.mDir = s.mWatcher.mDir ∧
      (processEvent env s info).mWatcher.mIgnore = s.mWatcher.mIgnore ∧
      (processEvent env s info).requests = s.requests) ∧
    (env.GetFileAttributesExW (eventPath env s info) = none → processEvent env s info = s) := by
  refine ⟨?_, ?_⟩
  · intro data hd
    have h : processEvent env s info =
        { s with
          mWatcher := s.mWatcher.create (eventPath env s info)
          mTree := s.mTree.add (eventPath env s info) (CONVERT_TIME data.ftLastWriteTime)
            (isDirectory data.dwFileAttributes) } := by
      simp only [processEvent, hI, hA, hd, if_true, if_false, Bool.false_eq_true]
    rw [h]
    refine ⟨?_, ?_, ?_, rfl, rfl, rfl, rfl⟩
    · simp [DirTree.add]
    · intro q hq
      simp [DirTree.add, hq]
    · simp [Watcher.create]
  · intro hn
    simp only [processEvent, hI, hA, hn, if_true, if_false, Bool.false_eq_true]

/-- The hypotheses of `processEvent_created` hold for "added a.txt" on `subA`
in `envA`: the entry stamped `10` is overwritten with the stat's `20`. -/
theorem processEvent_created_witness :
    (processEvent envA subA ⟨0, FILE_ACTION_ADDED, 10, aTxt⟩).mTree "/w\\a.txt"
      = some ⟨"/w\\a.txt", 20, false⟩ ∧
    (processEvent envA subA ⟨0, FILE_ACTION_ADDED, 10, aTxt⟩).mWatcher.mEvents
      = [] ++ [Event.Created "/w\\a.txt"] :=
  have h := (processEvent_created envA subA ⟨0, FILE_ACTION_ADDED, 10, aTxt⟩
    (Or.inl rfl) (by decide)).1 fileAt20 (by decide)
  ⟨h.1, h.2.2.1⟩


/-! ### readTree -/

/-- C4: ignore exclusion.  From a tree that holds no ignored path, (1) the
tree holds no ignored path after any number of iterations of the walk of
`readTree`, in particular in the tree `readTree` returns; each iteration
pushes, on top of the directories that were pending below the one it popped,
only directories outside the ignore set; (2) `processEvent` on a record whose
full path is ignored, whatever its action code, returns the Subscription
unchanged (tree, pending events and all). -/
theorem ignore_exclusion (env : Env) (w : Watcher) (tree : DirTree)
    (hT : ∀ p ∈ w.mIgnore, tree p = none) :
    (∀ n, ∀ p ∈ w.mIgnore, ((readTreeStep env w)^[n] (readTreeInit w tree)).tree p = none) ∧
    (∀ fuel t, readTree env w tree fuel = some t → ∀ p ∈ w.mIgnore, t p = none) ∧
    (∀ s : ScanState, ∃ pushed : List String,
      (readTreeStep env w s).directories = pushed ++ s.directories.tail ∧
      ∀ d ∈ pushed, d ∉ w.mIgnore) ∧
    (∀ (s : Subscription) (info : FILE_NOTIFY_INFORMATION),
      s.mWatcher.isIgnored (eventPath env s info) = true → processEvent env s info = s) := by
  have h1 : ∀ n, ∀ p ∈ w.mIgnore,
      ((readTreeStep env w)^[n] (readTreeInit w tree)).tree p = none := by
    intro n p hp
    obtain ⟨more, _, ht, hm, _⟩ := iterate_spec env w n (readTreeInit w tree)
    rw [ht]
    exact replay_ignored w more hm _ hT p hp
  refine ⟨h1, ?_, ?_, ?_⟩
  · intro fuel t ht p hp
    unfold readTree at ht
    rw [readTreeLoop_eq] at ht
    split at ht
    · simp only [Option.map_some', Option.some.injEq] at ht
      rw [← ht]
      exact h1 fuel p hp
    · simp at ht
  · intro s
    cases hs : s.directories with
    | nil =>
      rw [readTreeStep_nil env w s hs, hs]
      exact ⟨[], by simp, by simp⟩
    | cons path rest =>
      obtain ⟨pushed, _, hd, _, _, hp, _, _, _⟩ := readTreeStep_spec env w s path rest hs
      refine ⟨pushed, by simpa using hd, ?_⟩
      intro d hdm
      obtain ⟨_, _, _, e, _, hsc, _, hde⟩ := hp d hdm
      rw [hde]
      exact hsc.2.2
  · intro s info hI
    simp only [processEvent, hI, if_true]

/-- The hypothesis of `ignore_exclusion` holds of the empty tree and the
Watcher `watcherW`; in `envW` the scan lists the ignored `/w\\.git` next to
`a.txt`, returns after three iterations, and holds `a.txt` but not `.git`. -/
theorem ignore_exclusion_witness :
    (readTree envW watcherW DirTree.empty 3).map (fun t => (t "/w\\.git", t "/w\\a.txt"))
      = some (none, some ⟨"/w\\a.txt", 20, false⟩) ∧
    (∀ t, readTree envW watcherW DirTree.empty 3 = some t → ∀ p ∈ watcherW.mIgnore, t p = none) :=
  ⟨by decide, (ignore_exclusion envW watcherW DirTree.empty (fun _ _ => rfl)).2.1 3⟩

/-- C8: when the directory on top of the pending stack cannot be enumerated,
the iteration calls `tree.remove` on it and leaves the rest of the stack
pending; on a well-founded enumeration the walk then runs to the end, which it
reaches only with the stack empty; the calls it makes after the `remove`
include the `add`, with last-write time and directory flag, of every entry
that passes the tests in every remaining pending directory that can be
enumerated, and the tree returned is the tree after these calls. -/
theorem readTree_enumeration_failure (env : Env) (w : Watcher) (hwf : WellFoundedFS env w)
    (s : ScanState) (path : String) (rest : List String)
    (hs : s.directories = path :: rest)
    (hf : env.FindFiles (path ++ "\\*") = none) :
    readTreeStep env w s =
      { directories := rest
        tree := s.tree.remove path
        calls := s.calls ++ [TreeCall.remove path] } ∧
    (∃ (fuel : Nat) (final : ScanState) (more : List TreeCall),
      readTreeLoop env w fuel s = some final ∧
      final.directories = [] ∧
      final.calls = s.calls ++ TreeCall.remove path :: more ∧
      final.tree = more.foldl TreeCall.apply (s.tree.remove path) ∧
      ∀ d ∈ rest, ∀ ffd tail, env.FindFiles (d ++ "\\*") = some (ffd, tail) →
        ∀ e ∈ ffd :: tail, Scanned w d e → addCall d e ∈ more) ∧
    (∀ fuel final, readTreeLoop env w fuel s = some final → final.directories = []) := by
  have hstep := readTreeStep_fail env w s path rest hs hf
  refine ⟨hstep, ?_, ?_⟩
  · obtain ⟨n, hn⟩ := readTree_terminates env w hwf (readTreeStep env w s)
    obtain ⟨more, hc, ht, _, hfin⟩ := iterate_spec env w n (readTreeStep env w s)
    refine ⟨n + 1, (readTreeStep env w)^[n] (readTreeStep env w s), more, ?_, hn, ?_, ?_, ?_⟩
    · rw [readTreeLoop_eq, Function.iterate_succ_apply, if_pos hn]
    · rw [hc, hstep]; simp
    · rw [ht, hstep]
    · intro d hd ffd tail hfd e he hsc
      have hmem : d ∈ (readTreeStep env w s).directories := by
        rw [hstep]; exact hd
      exact (hfin hn d hmem).2 ffd tail hfd e he hsc
  · intro fuel final h
    rw [readTreeLoop_eq] at h
    split at h
    · rename_i hnil
      simp only [Option.some.injEq] at h
      rw [← h]
      exact hnil
    · simp at h

/-- The hypotheses of `readTree_enumeration_failure` hold in `envOther` for the
walk `scanSub`: `/w\\sub` cannot be enumerated, `/w\\other` is still pending,
and the walk ends with the file of `/w\\other` in the tree. -/
theorem readTree_enumeration_failure_witness :
    envOther.FindFiles ("/w\\sub" ++ "\\*") = none ∧
    (readTreeLoop envOther watcherW 2 scanSub).map
      (fun f => (f.directories, f.calls, f.tree "/w\\other\\f.txt", f.tree "/w\\sub"))
      = some ([], [TreeCall.remove "/w\\sub", TreeCall.add "/w\\other\\f.txt" 42 false],
          some ⟨"/w\\other\\f.txt", 42, false⟩, none) ∧
    (∀ fuel final, readTreeLoop envOther watcherW fuel scanSub = some final →
      final.directories = []) :=
  have hwf : WellFoundedFS envOther watcherW := by
    refine ⟨fun _ => 0, ?_⟩
    intro p ffd more h e he _ hdir
    simp only [envOther] at h
    split at h
    · simp only [Option.some.injEq, Prod.mk.injEq] at h
      rw [← h.1, ← h.2] at he
      simp only [List.mem_singleton] at he
      rw [he] at hdir
      exact absurd hdir (by decide)
    · simp at h
  ⟨by decide, by decide,
    (readTree_enumeration_failure envOther watcherW hwf scanSub "/w\\sub" ["/w\\other"] rfl
      (by decide)).2.2⟩


/-! ### processEvents -/

/-- C5, as stated, fails: on the running Subscription `subAB` (empty tree) in
the filesystem `envW`, the overflow code leaves the tree empty, while a fresh
scan of `/w` holds `/w\\a.txt`. -/
theorem overflow_recovery_counterexample :
    (processEvents envW true subAB ERROR_NOTIFY_ENUM_DIR).thrown = none ∧
    (processEvents envW true subAB ERROR_NOTIFY_ENUM_DIR).state.mTree "/w\\a.txt" = none ∧
    (readTree envW subAB.mWatcher DirTree.empty 3).map (fun t => t "/w\\a.txt")
      = some (some ⟨"/w\\a.txt", 20, false⟩) ∧
    ¬ (∀ t, readTree envW subAB.mWatcher DirTree.empty 3 = some t →
        (processEvents envW true subAB ERROR_NOTIFY_ENUM_DIR).state.mTree = t) := by
  have h3 : (readTree envW subAB.mWatcher DirTree.empty 3).map (fun t => t "/w\\a.txt")
      = some (some ⟨"/w\\a.txt", 20, false⟩) := by decide
  refine ⟨by decide, by decide, h3, ?_⟩
  intro h
  cases hr : readTree envW subAB.mWatcher DirTree.empty 3 with
  | none => rw [hr] at h3; simp at h3
  | some t =>
    have ht := h t hr
    rw [hr] at h3
    simp only [Option.map_some', Option.some.injEq] at h3
    rw [← ht] at h3
    exact absurd h3 (by decide)

/-- C5, amended: on the overflow code `ERROR_NOTIFY_ENUM_DIR` the handler
returns at once without throwing; the Subscription is exactly as before: the
tree is the tree it had (no scan is made), no event is added, nothing is
flushed and no request is issued. -/
theorem processEvents_overflow (env : Env) (rdcw : Bool) (s : Subscription) :
    processEvents env rdcw s ERROR_NOTIFY_ENUM_DIR = ⟨s, none⟩ := by
  unfold processEvents
  cases s.mRunning <;> simp [ERROR_NOTIFY_ENUM_DIR, ERROR_OPERATION_ABORTED,
    ERROR_INVALID_PARAMETER]

/-- C6, as stated, fails: on the running Subscription `subA` the code 5
(`ERROR_ACCESS_DENIED`) makes the handler throw "Unknown error", and the sink
of the Watcher has received nothing. -/
theorem fatal_error_counterexample :
    (processEvents envA true subA 5).thrown = some "Unknown error" ∧
    (processEvents envA true subA 5).state.mWatcher.sink = subA.mWatcher.sink ∧
    (processEvents envA true subA 5).state.mWatcher.mEvents = subA.mWatcher.mEvents := by
  decide

/-- C6, amended: on a running Subscription every code other than success and
the three benign codes makes the handler throw "Unknown error" out of the
completion routine, with the Subscription exactly as before: nothing is
delivered to the sink, no request is issued, the buffers are not swapped, the
tree and the pending events are unchanged. -/
theorem processEvents_fatal (env : Env) (rdcw : Bool) (s : Subscription) (errorCode : Nat)
    (hR : s.mRunning = true)
    (h0 : errorCode ≠ ERROR_SUCCESS)
    (h1 : errorCode ≠ ERROR_OPERATION_ABORTED)
    (h2 : errorCode ≠ ERROR_INVALID_PARAMETER)
    (h3 : errorCode ≠ ERROR_NOTIFY_ENUM_DIR) :
    processEvents env rdcw s errorCode = ⟨s, some "Unknown error"⟩ := by
  unfold processEvents
  simp [hR, h0, h1, h2, h3]

/-- The hypotheses of `processEvents_fatal` hold of `subA` and the code 5. -/
theorem processEvents_fatal_witness :
    subA.mRunning = true ∧ processEvents envA true subA 5 = ⟨subA, some "Unknown error"⟩ :=
  ⟨rfl, processEvents_fatal envA true subA 5 rfl (by decide) (by decide) (by decide)
    (by decide)⟩

/-- C7, as stated, fails: the write buffer of the running Subscription `subAB`
holds the well-formed chain "added a.txt", "added b.txt", on paths that are
not ignored and that resolve in `envAB`.  When the re-arm request is refused,
the successful completion throws "Unexpected shutdown" before any record is
walked: no event is pending, nothing is flushed, neither path is in the tree.
When the Subscription is not running, it returns at once, with the same
loss. -/
theorem no_loss_counterexample :
    subAB.mRunning = true ∧
    subAB.mWriteBuffer.recordAt 0 = ⟨24, FILE_ACTION_ADDED, 10, aTxt⟩ ∧
    subAB.mWriteBuffer.recordAt 24 = ⟨0, FILE_ACTION_ADDED, 10, bTxt⟩ ∧
    envAB.GetFileAttributesExW "/w\\a.txt" = some fileAt20 ∧
    envAB.GetFileAttributesExW "/w\\b.txt" = some ⟨⟨30, 0⟩, 32⟩ ∧
    (processEvents envAB false subAB ERROR_SUCCESS).thrown = some "Unexpected shutdown" ∧
    (processEvents envAB false subAB ERROR_SUCCESS).state.mWatcher.mEvents = [] ∧
    (processEvents envAB false subAB ERROR_SUCCESS).state.mWatcher.sink = [] ∧
    (processEvents envAB false subAB ERROR_SUCCESS).state.mTree "/w\\a.txt" = none ∧
    (processEvents envAB false subAB ERROR_SUCCESS).state.mTree "/w\\b.txt" = none ∧
    (processEvents envAB true { subAB with mRunning := false } ERROR_SUCCESS).thrown = none ∧
    (processEvents envAB true { subAB with mRunning := false } ERROR_SUCCESS).state.mWatcher.sink
      = [] ∧
    (processEvents envAB true { subAB with mRunning := false } ERROR_SUCCESS).state.mTree
      "/w\\a.txt" = none := by
  decide

/-- C7, amended: no loss under rapid change.  On a running Subscription whose write
buffer holds a well-formed chain `recs` of created records (at least one) on
paths that are not ignored and that resolve, a successful completion whose
re-arm is accepted ends without throwing, in the state obtained by swapping
the buffers, issuing the new request, calling `processEvent` once per record
of the old write buffer in buffer order, and calling `notify()` once.  At the
flush the pending events are the earlier ones followed by `Created p` for the
paths of `recs` in order, they are delivered as one batch, and the tree holds
every named path with its stat. -/
theorem processEvents_no_loss (env : Env) (s : Subscription) (recs : List FILE_NOTIFY_INFORMATION)
    (hR : s.mRunning = true)
    (hC : Chain s.mWriteBuffer 0 recs)
    (hA : ∀ r ∈ recs, r.Action = FILE_ACTION_ADDED)
    (hI : ∀ r ∈ recs, s.mWatcher.isIgnored (eventPath env s r) = false)
    (hE : ∀ r ∈ recs, ∃ data, env.GetFileAttributesExW (eventPath env s r) = some data) :
    1 ≤ recs.length ∧
    processEvents env true s ERROR_SUCCESS
      = ⟨{ recs.foldl (processEvent env) (rearmed s) with
            mWatcher := (recs.foldl (processEvent env) (rearmed s)).mWatcher.notify }, none⟩ ∧
    (recs.foldl (processEvent env) (rearmed s)).mWatcher.mEvents
      = s.mWatcher.mEvents ++ recs.map (fun r => Event.Created (eventPath env s r)) ∧
    (processEvents env true s ERROR_SUCCESS).state.mWatcher.sink
      = s.mWatcher.sink ++
        [s.mWatcher.mEvents ++ recs.map (fun r => Event.Created (eventPath env s r))] ∧
    (∀ r ∈ recs, ∃ data, env.GetFileAttributesExW (eventPath env s r) = some data ∧
      (processEvents env true s ERROR_SUCCESS).state.mTree (eventPath env s r)
        = some ⟨eventPath env s r, CONVERT_TIME data.ftLastWriteTime,
            isDirectory data.dwFileAttributes⟩) := by
  have hlen : 1 ≤ recs.length := by
    cases recs with
    | nil => exact absurd hC (by simp [Chain])
    | cons r rest => simp
  have hp : ∀ x, eventPath env (rearmed s) x = eventPath env s x := fun x => rfl
  have hwalk := walkRecords_chain env s.mWriteBuffer recs s.mWriteBuffer.size 0 (rearmed s) hC
    (by omega)
  have hrun : processEvents env true s ERROR_SUCCESS
      = ⟨{ recs.foldl (processEvent env) (rearmed s) with
            mWatcher := (recs.foldl (processEvent env) (rearmed s)).mWatcher.notify }, none⟩ := by
    unfold processEvents
    simp only [hR, poll, rearmed] at hwalk ⊢
    simp [ERROR_SUCCESS, ERROR_OPERATION_ABORTED, ERROR_INVALID_PARAMETER,
      ERROR_NOTIFY_ENUM_DIR, hwalk]
  obtain ⟨e1, e2, _, _⟩ := foldl_added env recs (rearmed s) hA
    (fun r hr => by rw [hp]; exact hI r hr) (fun r hr => by rw [hp]; exact hE r hr)
  simp only [hp] at e1 e2
  have hsink : ∀ (l : List FILE_NOTIFY_INFORMATION) (t : Subscription),
      (l.foldl (processEvent env) t).mWatcher.sink = t.mWatcher.sink := by
    intro l
    induction l with
    | nil => intro t; rfl
    | cons r rest ih => intro t; rw [List.foldl_cons, ih, (processEvent_frame env t r).2.2.1]
  refine ⟨hlen, hrun, e1, ?_, ?_⟩
  · rw [hrun]
    simp only [Watcher.notify]
    rw [hsink, e1]
    rfl
  · intro r hr
    obtain ⟨data, hd⟩ := hE r hr
    refine ⟨data, hd, ?_⟩
    rw [hrun]
    exact e2 r hr data hd

/-- The hypotheses of `processEvents_no_loss` hold of `subAB` in `envAB`, whose
write buffer chains "added a.txt" and "added b.txt": both events are flushed
in that order, as one batch. -/
theorem processEvents_no_loss_witness :
    Chain subAB.mWriteBuffer 0
      [⟨24, FILE_ACTION_ADDED, 10, aTxt⟩, ⟨0, FILE_ACTION_ADDED, 10, bTxt⟩] ∧
    (processEvents envAB true subAB ERROR_SUCCESS).state.mWatcher.sink
      = [] ++ [[] ++ [Event.Created "/w\\a.txt", Event.Created "/w\\b.txt"]] :=
  have hC : Chain subAB.mWriteBuffer 0
      [⟨24, FILE_ACTION_ADDED, 10, aTxt⟩, ⟨0, FILE_ACTION_ADDED, 10, bTxt⟩] :=
    ⟨by decide, rfl, by decide, by decide, rfl, rfl⟩
  have hE : ∀ r ∈ [(⟨24, FILE_ACTION_ADDED, 10, aTxt⟩ : FILE_NOTIFY_INFORMATION),
      ⟨0, FILE_ACTION_ADDED, 10, bTxt⟩],
      ∃ data, envAB.GetFileAttributesExW (eventPath envAB subAB r) = some data := by
    intro r hr
    simp only [List.mem_cons, List.mem_singleton, List.not_mem_nil, or_false] at hr
    rcases hr with h | h
    · exact ⟨fileAt20, by rw [h]; decide⟩
    · exact ⟨⟨⟨30, 0⟩, 32⟩, by rw [h]; decide⟩
  ⟨hC, (processEvents_no_loss envAB subAB
      [⟨24, FILE_ACTION_ADDED, 10, aTxt⟩, ⟨0, FILE_ACTION_ADDED, 10, bTxt⟩] rfl hC
      (by decide) (by decide) hE).2.2.2.1⟩

/-- C10, as stated, fails: on the running Subscription `subA` each of the
three benign codes makes the handler return without throwing and without
issuing a request. -/
theorem rearm_counterexample :
    (processEvents envA true subA ERROR_INVALID_PARAMETER).thrown = none ∧
    (processEvents envA true subA ERROR_INVALID_PARAMETER).state.requests = subA.requests ∧
    (processEvents envA true subA ERROR_OPERATION_ABORTED).state.requests = subA.requests ∧
    (processEvents envA true subA ERROR_NOTIFY_ENUM_DIR).state.requests = subA.requests := by
  decide

/-- C10, amended: on a running Subscription a successful completion swaps the
buffers and calls `poll()` once, before any record is walked; when the request
is accepted it is the one new request, issued on the buffer that was the read
buffer, while the records walked are those of the buffer that was the write
buffer; when it is refused `poll()` throws "Unexpected shutdown" with the
buffers swapped and no request issued.  On each of the three benign codes the
handler returns at once and issues no request. -/
theorem processEvents_rearm (env : Env) (s : Subscription) (hR : s.mRunning = true) :
    processEvents env true s ERROR_SUCCESS
      = flushed (walkRecords env s.mWriteBuffer s.mWriteBuffer.size 0 (rearmed s)) ∧
    (processEvents env true s ERROR_SUCCESS).state.requests
      = s.requests ++ [s.mReadBuffer.addr] ∧
    (processEvents env true s ERROR_SUCCESS).state.mWriteBuffer = s.mReadBuffer ∧
    (processEvents env true s ERROR_SUCCESS).state.mReadBuffer = s.mWriteBuffer ∧
    processEvents env false s ERROR_SUCCESS
      = ⟨{ s with mWriteBuffer := s.mReadBuffer, mReadBuffer := s.mWriteBuffer },
          some "Unexpected shutdown"⟩ ∧
    (∀ (rdcw : Bool) (errorCode : Nat),
      errorCode = ERROR_OPERATION_ABORTED ∨ errorCode = ERROR_INVALID_PARAMETER ∨
        errorCode = ERROR_NOTIFY_ENUM_DIR →
      processEvents env rdcw s errorCode = ⟨s, none⟩) := by
  have hrun : processEvents env true s ERROR_SUCCESS
      = flushed (walkRecords env s.mWriteBuffer s.mWriteBuffer.size 0 (rearmed s)) := by
    unfold processEvents
    simp only [hR, poll, rearmed, flushed]
    simp [ERROR_SUCCESS, ERROR_OPERATION_ABORTED, ERROR_INVALID_PARAMETER,
      ERROR_NOTIFY_ENUM_DIR]
  obtain ⟨_, _, f3, f4, f5⟩ :=
    walkRecords_frame env s.mWriteBuffer s.mWriteBuffer.size 0 (rearmed s)
  have hfl : ∀ o : Outcome, (flushed o).state.requests = o.state.requests ∧
      (flushed o).state.mWriteBuffer = o.state.mWriteBuffer ∧
      (flushed o).state.mReadBuffer = o.state.mReadBuffer := by
    intro o
    unfold flushed
    cases o.thrown <;> simp
  refine ⟨hrun, ?_, ?_, ?_, ?_, ?_⟩
  · rw [hrun, (hfl _).1, f5]; rfl
  · rw [hrun, (hfl _).2.1, f4]; rfl
  · rw [hrun, (hfl _).2.2, f3]; rfl
  · unfold processEvents
    simp [hR, poll, ERROR_SUCCESS, ERROR_OPERATION_ABORTED, ERROR_INVALID_PARAMETER,
      ERROR_NOTIFY_ENUM_DIR]
  · intro rdcw errorCode h
    unfold processEvents
    rcases h with h | h | h <;> simp [hR, h, ERROR_OPERATION_ABORTED, ERROR_INVALID_PARAMETER,
      ERROR_NOTIFY_ENUM_DIR]

/-- The hypothesis of `processEvents_rearm` holds of `subAB`: in `envAB` the
new request is on the buffer at 4096, the records walked are those of the
buffer at 8192. -/
theorem processEvents_rearm_witness :
    subAB.mRunning = true ∧
    (processEvents envAB true subAB ERROR_SUCCESS).state.requests = [8192] ++ [4096] ∧
    subAB.mWriteBuffer.addr = 8192 :=
  ⟨rfl, (processEvents_rearm envAB subAB rfl).2.1, rfl⟩


/-! ### Reconciliation -/

end FsChanges
